import Mathlib

set_option maxHeartbeats 1000000

noncomputable section

open Classical

/-- Process-wide trade tolerance, the module constant TOLERANCE = 0.005. -/
def TOLERANCE : ℝ := 0.005

/-- Optimal sensing distance, the module constant named OPTIMAL_DISTANCE
(written with two leading underscores in the source) = 0.5. -/
def OPTIMAL_DISTANCE : ℝ := 0.5

/-- Distance attenuation kernel.
Source: distance_factor. -/
def distance_factor (distance : ℝ) : ℝ :=
  (1.0 / OPTIMAL_DISTANCE) / (1.0 + (distance / OPTIMAL_DISTANCE) ^ 2)

/-- Derivative of distance_factor divided by the distance, in closed form.
Source: distance_factor_derivative_over_distance. -/
def distance_factor_derivative_over_distance (distance : ℝ) : ℝ :=
  -(2.0 / OPTIMAL_DISTANCE ^ 3) / (1.0 + (distance / OPTIMAL_DISTANCE) ^ 2) ^ 2

/-- Unit heading vector of an angle. Source: versor_from_angle. -/
def versor_from_angle (theta : ℝ) : ℝ × ℝ :=
  (Real.cos theta, Real.sin theta)

/-- Rotation of a versor by +90 degrees. Source: versor_gradient. -/
def versor_gradient (ver : ℝ × ℝ) : ℝ × ℝ :=
  (-ver.2, ver.1)

/-- Signed distance to the nearest edge of an axis-aligned rectangle.
Source: the function named square_boundary_function (two leading underscores
in the source); the Python min over the four-element list folds pairwise. -/
def square_boundary_function (bounds : (ℝ × ℝ) × (ℝ × ℝ)) (position : ℝ × ℝ) : ℝ :=
  let xmin := bounds.1.1
  let xmax := bounds.1.2
  let ymin := bounds.2.1
  let ymax := bounds.2.2
  let x := position.1
  let y := position.2
  min (min (min (xmax - x) (x - xmin)) (ymax - y)) (y - ymin)

/-- Modelled from the library call numpy argmin used by the source: the index
of the first occurrence of the minimum of the list (lowest index on ties). -/
def np_argmin : List ℝ → ℕ
  | [] => 0
  | a :: t => if ∀ b ∈ t, a ≤ b then 0 else np_argmin t + 1

/-- Inward unit vector away from the nearest rectangle edge.
Source: the function named square_boundary_function_gradient (two leading
underscores in the source).  The argmin of a four-element list is at most 3,
so the final branch is the source's index == 3 branch. -/
def square_boundary_function_gradient (bounds : (ℝ × ℝ) × (ℝ × ℝ)) (position : ℝ × ℝ) : ℝ × ℝ :=
  let xmin := bounds.1.1
  let xmax := bounds.1.2
  let ymin := bounds.2.1
  let ymax := bounds.2.2
  let x := position.1
  let y := position.2
  let index := np_argmin [xmax - x, x - xmin, ymax - y, y - ymin]
  if index = 0 then (-1, 0)
  else if index = 1 then (1, 0)
  else if index = 2 then (0, -1)
  else (0, 1)

/-- A landmark is an immutable 2D point. Source: class Landmark. -/
@[ext]
structure Landmark where
  x : ℝ
  y : ℝ

instance : Inhabited Landmark := ⟨⟨0, 0⟩⟩

/-- Directional visibility of a landmark from a pose.
Source: Landmark.visibility (the norm is the Euclidean norm of p - q). -/
def Landmark.visibility (lmk : Landmark) (x y theta : ℝ) : ℝ :=
  let q : ℝ × ℝ := (lmk.x, lmk.y)
  let p : ℝ × ℝ := (x, y)
  let v := versor_from_angle theta
  let d := Real.sqrt ((p.1 - q.1) ^ 2 + (p.2 - q.2) ^ 2);
  -distance_factor d * ((p.1 - q.1) * v.1 + (p.2 - q.2) * v.2)

/-- Gradient of visibility in the pose position, as computed by the source:
the matrix -dfdod(d) * outer(p-q, p-q) - f(d) * I applied to the versor v,
written out componentwise.  Source: Landmark.position_visibility_gradient. -/
def Landmark.position_visibility_gradient (lmk : Landmark) (x y theta : ℝ) : ℝ × ℝ :=
  let q : ℝ × ℝ := (lmk.x, lmk.y)
  let p : ℝ × ℝ := (x, y)
  let v := versor_from_angle theta
  let d := Real.sqrt ((p.1 - q.1) ^ 2 + (p.2 - q.2) ^ 2);
  (-distance_factor_derivative_over_distance d *
      ((p.1 - q.1) * (p.1 - q.1) * v.1 + (p.1 - q.1) * (p.2 - q.2) * v.2)
    - distance_factor d * v.1,
   -distance_factor_derivative_over_distance d *
      ((p.2 - q.2) * (p.1 - q.1) * v.1 + (p.2 - q.2) * (p.2 - q.2) * v.2)
    - distance_factor d * v.2)

/-- Partial derivative of visibility in the pose angle, as computed by the
source.  Source: Landmark.orientation_visibility_gradient. -/
def Landmark.orientation_visibility_gradient (lmk : Landmark) (x y theta : ℝ) : ℝ :=
  let q : ℝ × ℝ := (lmk.x, lmk.y)
  let p : ℝ × ℝ := (x, y)
  let v := versor_from_angle theta
  let d := Real.sqrt ((p.1 - q.1) ^ 2 + (p.2 - q.2) ^ 2);
  -distance_factor d * ((versor_gradient v).1 * (p.1 - q.1) + (versor_gradient v).2 * (p.2 - q.2))

/-- An agent is a pose together with the owned landmark collection.
Source: class Agent. -/
structure Agent where
  x : ℝ
  y : ℝ
  theta : ℝ
  landmarks : List Landmark

/-- Sum of the visibility of the owned landmarks from the current pose.
Source: Agent.coverage (a running sum starting at 0.0). -/
def Agent.coverage (a : Agent) : ℝ :=
  a.landmarks.foldl (fun cov lmk => cov + lmk.visibility a.x a.y a.theta) 0.0

/-- Removal of the given original indices followed by appending the given
landmarks.  Source: Agent.update_landmarks; the comprehension keeps, in
order, the entries of range(len) that are not in the removal list and indexes
the collection with them (those indices are always in bounds, so the
default value of getD is never produced). -/
def Agent.update_landmarks (a : Agent) (indexes_i_remove : List ℕ)
    (landmarks_i_add : List Landmark) : Agent :=
  let filtered_landmarks :=
    ((List.range a.landmarks.length).filter (fun i => decide (i ∉ indexes_i_remove))).map
      (fun i => a.landmarks.getD i default)
  { a with landmarks := filtered_landmarks ++ landmarks_i_add }

/-- First loop of Agent.trade: the enumerated own landmarks whose visibility
from the other pose strictly exceeds their visibility from the own pose plus
TOLERANCE. -/
def Agent.trade_pass_one (a : Agent) (x y theta : ℝ) : List (ℕ × Landmark) :=
  a.landmarks.enum.filter
    (fun il => decide (il.2.visibility x y theta > il.2.visibility a.x a.y a.theta + TOLERANCE))

/-- Accumulator indexes_i_remove of Agent.trade. -/
def Agent.indexes_i_remove (a : Agent) (x y theta : ℝ) : List ℕ :=
  (a.trade_pass_one x y theta).map Prod.fst

/-- Accumulator landmarks_you_add of Agent.trade. -/
def Agent.landmarks_you_add (a : Agent) (x y theta : ℝ) : List Landmark :=
  (a.trade_pass_one x y theta).map Prod.snd

/-- Second loop of Agent.trade: the enumerated snapshot landmarks whose
visibility from the own pose strictly exceeds their visibility from the other
pose plus TOLERANCE. -/
def Agent.trade_pass_two (a : Agent) (x y theta : ℝ) (landmarks : List Landmark) :
    List (ℕ × Landmark) :=
  landmarks.enum.filter
    (fun il => decide (il.2.visibility a.x a.y a.theta > il.2.visibility x y theta + TOLERANCE))

/-- Accumulator indexes_you_remove of Agent.trade. -/
def Agent.indexes_you_remove (a : Agent) (x y theta : ℝ) (landmarks : List Landmark) : List ℕ :=
  (a.trade_pass_two x y theta landmarks).map Prod.fst

/-- Accumulator landmarks_i_add of Agent.trade. -/
def Agent.landmarks_i_add (a : Agent) (x y theta : ℝ) (landmarks : List Landmark) :
    List Landmark :=
  (a.trade_pass_two x y theta landmarks).map Prod.snd

/-- The trading protocol.  Source: Agent.trade; the success flag is set
exactly when either loop marks at least one landmark, the two source assert
statements always hold (settled separately), the self side is updated through
update_landmarks, and success, indexes_you_remove and landmarks_you_add are
returned, here together with the updated self state. -/
def Agent.trade (a : Agent) (x y theta : ℝ) (landmarks : List Landmark) :
    Bool × List ℕ × List Landmark × Agent :=
  let success := !(a.trade_pass_one x y theta).isEmpty ||
    !(a.trade_pass_two x y theta landmarks).isEmpty
  (success, a.indexes_you_remove x y theta landmarks, a.landmarks_you_add x y theta,
    a.update_landmarks (a.indexes_i_remove x y theta) (a.landmarks_i_add x y theta landmarks))

/-- Keeping the second components of the enumeration entries whose second
component satisfies a predicate is filtering the list by that predicate. -/
theorem filter_enumFrom_map_snd {α : Type} (q : α → Bool) (l : List α) :
    ∀ n : ℕ, ((l.enumFrom n).filter (fun p => q p.2)).map Prod.snd = l.filter q := by
  induction l with
  | nil => intro n; simp
  | cons a t ih =>
    intro n
    rw [List.enumFrom_cons, List.filter_cons, List.filter_cons]
    cases hqa : q a
    · simpa [hqa] using ih (n + 1)
    · simpa [hqa] using ih (n + 1)

/-- Membership of an enumeration index in the marked index list is equivalent
to the marking predicate holding at the corresponding element. -/
theorem mem_map_fst_filter_enumFrom {α : Type} (q : α → Bool) (l : List α)
    (n : ℕ) (p : ℕ × α) (hp : p ∈ l.enumFrom n) :
    p.1 ∈ ((l.enumFrom n).filter (fun r => q r.2)).map Prod.fst ↔ q p.2 = true := by
  obtain ⟨i, x⟩ := p
  constructor
  · intro hmem
    obtain ⟨r, hr, hr1⟩ := List.mem_map.mp hmem
    obtain ⟨hrl, hrq⟩ := List.mem_filter.mp hr
    obtain ⟨i', x'⟩ := r
    simp only at hr1 hrq
    subst hr1
    obtain ⟨h1, h2, h3⟩ := List.mem_enumFrom hrl
    obtain ⟨h1', h2', h3'⟩ := List.mem_enumFrom hp
    have hx : x' = x := h3.trans h3'.symm
    simpa [hx] using hrq
  · intro hq
    exact List.mem_map.mpr ⟨(i, x), List.mem_filter.mpr ⟨hp, by simpa using hq⟩, rfl⟩

/-- Removing the indices of a list I from an enumerated list keeps exactly the
elements failing the predicate that characterises membership in I. -/
theorem filter_not_mem_map_snd {α : Type} (q : α → Bool) (I : List ℕ) (l : List α) :
    ∀ n : ℕ, (∀ p ∈ l.enumFrom n, (p.1 ∈ I ↔ q p.2 = true)) →
      ((l.enumFrom n).filter (fun p => decide (p.1 ∉ I))).map Prod.snd
        = l.filter (fun x => !(q x)) := by
  induction l with
  | nil => intro n _; simp
  | cons a t ih =>
    intro n hchar
    have hhead : n ∈ I ↔ q a = true := by
      simpa using hchar (n, a) (by simp [List.enumFrom_cons])
    have htail : ∀ p ∈ t.enumFrom (n + 1), (p.1 ∈ I ↔ q p.2 = true) := by
      intro p hp
      exact hchar p (by simp [List.enumFrom_cons, hp])
    rw [List.enumFrom_cons, List.filter_cons, List.filter_cons]
    cases hqa : q a
    · have hn : n ∉ I := by
        intro hmem
        have := hhead.mp hmem
        simp [hqa] at this
      simpa [hn, hqa] using ih (n + 1) htail
    · have hn : n ∈ I := hhead.mpr hqa
      simpa [hn, hqa] using ih (n + 1) htail

/-- The range-and-index comprehension of update_landmarks agrees with the
corresponding filter of the enumerated list. -/
theorem range'_filter_map_getD {α : Type} [Inhabited α] (P : ℕ → Bool) (l : List α) :
    ∀ n : ℕ, ((List.range' n l.length).filter P).map (fun i => l.getD (i - n) default)
      = ((l.enumFrom n).filter (fun p => P p.1)).map Prod.snd := by
  induction l with
  | nil => intro n; simp
  | cons a t ih =>
    intro n
    rw [List.length_cons, List.range'_succ, List.enumFrom_cons, List.filter_cons,
      List.filter_cons]
    have hmap : ((List.range' (n + 1) t.length).filter P).map (fun i => (a :: t).getD (i - n) default)
        = ((List.range' (n + 1) t.length).filter P).map (fun i => t.getD (i - (n + 1)) default) := by
      apply List.map_congr_left
      intro i hi
      have hge : n + 1 ≤ i := by
        have := List.mem_filter.mp hi
        have := List.mem_range'_1.mp this.1
        omega
      have : i - n = (i - (n + 1)) + 1 := by omega
      rw [this, List.getD_cons_succ]
    cases hp : P n
    · rw [if_neg Bool.false_ne_true, if_neg Bool.false_ne_true, hmap, ih (n + 1)]
    · rw [if_pos rfl, if_pos rfl]
      simp only [List.map_cons, Nat.sub_self, List.getD_cons_zero]
      rw [hmap, ih (n + 1)]

/-- The landmarks handed to the other agent are exactly the own landmarks
marked in the first pass, in order. -/
theorem landmarks_you_add_eq (a : Agent) (x y theta : ℝ) :
    a.landmarks_you_add x y theta = a.landmarks.filter
      (fun lmk => decide (lmk.visibility x y theta > lmk.visibility a.x a.y a.theta + TOLERANCE)) := by
  unfold Agent.landmarks_you_add Agent.trade_pass_one
  rw [List.enum_eq_enumFrom]
  exact filter_enumFrom_map_snd
    (fun lmk => decide (lmk.visibility x y theta > lmk.visibility a.x a.y a.theta + TOLERANCE))
    a.landmarks 0

/-- The landmarks the caller appends to itself are exactly the snapshot
landmarks marked in the second pass, in order. -/
theorem landmarks_i_add_eq (a : Agent) (x y theta : ℝ) (landmarks : List Landmark) :
    a.landmarks_i_add x y theta landmarks = landmarks.filter
      (fun lmk => decide (lmk.visibility a.x a.y a.theta > lmk.visibility x y theta + TOLERANCE)) := by
  unfold Agent.landmarks_i_add Agent.trade_pass_two
  rw [List.enum_eq_enumFrom]
  exact filter_enumFrom_map_snd
    (fun lmk => decide (lmk.visibility a.x a.y a.theta > lmk.visibility x y theta + TOLERANCE))
    landmarks 0

/-- update_landmarks keeps, in order, the entries of the enumerated
collection whose index is not in the removal list, then appends. -/
theorem update_landmarks_landmarks (a : Agent) (I : List ℕ) (add : List Landmark) :
    (a.update_landmarks I add).landmarks
      = (a.landmarks.enum.filter (fun p => decide (p.1 ∉ I))).map Prod.snd ++ add := by
  have h := range'_filter_map_getD (fun i => decide (i ∉ I)) a.landmarks 0
  simp only [Nat.sub_zero] at h
  show ((List.range a.landmarks.length).filter (fun i => decide (i ∉ I))).map
      (fun i => a.landmarks.getD i default) ++ add
    = (a.landmarks.enum.filter (fun p => decide (p.1 ∉ I))).map Prod.snd ++ add
  rw [List.range_eq_range', h, List.enum_eq_enumFrom]

/-- The self side after trade: the own landmarks not marked in pass one,
followed by the snapshot landmarks marked in pass two. -/
theorem trade_updated_self_landmarks (a : Agent) (x y theta : ℝ) (landmarks : List Landmark) :
    ((a.trade x y theta landmarks).2.2.2).landmarks
      = a.landmarks.filter
          (fun lmk => !(decide (lmk.visibility x y theta > lmk.visibility a.x a.y a.theta + TOLERANCE)))
        ++ landmarks.filter
          (fun lmk => decide (lmk.visibility a.x a.y a.theta > lmk.visibility x y theta + TOLERANCE)) := by
  show (a.update_landmarks (a.indexes_i_remove x y theta)
      (a.landmarks_i_add x y theta landmarks)).landmarks = _
  rw [update_landmarks_landmarks, landmarks_i_add_eq]
  congr 1
  rw [List.enum_eq_enumFrom]
  have hprem : ∀ p ∈ a.landmarks.enumFrom 0,
      (p.1 ∈ a.indexes_i_remove x y theta ↔
        (fun lmk : Landmark =>
          decide (lmk.visibility x y theta > lmk.visibility a.x a.y a.theta + TOLERANCE)) p.2
          = true) := by
    intro p hp
    unfold Agent.indexes_i_remove Agent.trade_pass_one
    rw [List.enum_eq_enumFrom]
    exact mem_map_fst_filter_enumFrom
      (fun lmk => decide (lmk.visibility x y theta > lmk.visibility a.x a.y a.theta + TOLERANCE))
      a.landmarks 0 p hp
  exact filter_not_mem_map_snd
    (fun lmk => decide (lmk.visibility x y theta > lmk.visibility a.x a.y a.theta + TOLERANCE))
    (a.indexes_i_remove x y theta) a.landmarks 0 hprem

/-- The other side after the ownership patch returned by trade: the snapshot
landmarks not marked in pass two, followed by the own landmarks marked in
pass one. -/
theorem patch_updated_other_landmarks (a b : Agent) :
    (b.update_landmarks ((a.trade b.x b.y b.theta b.landmarks).2.1)
        ((a.trade b.x b.y b.theta b.landmarks).2.2.1)).landmarks
      = b.landmarks.filter
          (fun lmk => !(decide (lmk.visibility a.x a.y a.theta > lmk.visibility b.x b.y b.theta + TOLERANCE)))
        ++ a.landmarks.filter
          (fun lmk => decide (lmk.visibility b.x b.y b.theta > lmk.visibility a.x a.y a.theta + TOLERANCE)) := by
  show (b.update_landmarks (a.indexes_you_remove b.x b.y b.theta b.landmarks)
      (a.landmarks_you_add b.x b.y b.theta)).landmarks = _
  rw [update_landmarks_landmarks, landmarks_you_add_eq]
  congr 1
  rw [List.enum_eq_enumFrom]
  have hprem : ∀ p ∈ b.landmarks.enumFrom 0,
      (p.1 ∈ a.indexes_you_remove b.x b.y b.theta b.landmarks ↔
        (fun lmk : Landmark =>
          decide (lmk.visibility a.x a.y a.theta > lmk.visibility b.x b.y b.theta + TOLERANCE)) p.2
          = true) := by
    intro p hp
    unfold Agent.indexes_you_remove Agent.trade_pass_two
    rw [List.enum_eq_enumFrom]
    exact mem_map_fst_filter_enumFrom
      (fun lmk => decide (lmk.visibility a.x a.y a.theta > lmk.visibility b.x b.y b.theta + TOLERANCE))
      b.landmarks 0 p hp
  exact filter_not_mem_map_snd
    (fun lmk => decide (lmk.visibility a.x a.y a.theta > lmk.visibility b.x b.y b.theta + TOLERANCE))
    (a.indexes_you_remove b.x b.y b.theta b.landmarks) b.landmarks 0 hprem

/-- The success flag is set exactly when a landmark is marked in either pass. -/
theorem trade_success_iff (a : Agent) (x y theta : ℝ) (landmarks : List Landmark) :
    (a.trade x y theta landmarks).1 = true ↔
      ((∃ lmk ∈ a.landmarks,
          lmk.visibility x y theta > lmk.visibility a.x a.y a.theta + TOLERANCE)
        ∨ (∃ lmk ∈ landmarks,
          lmk.visibility a.x a.y a.theta > lmk.visibility x y theta + TOLERANCE)) := by
  have h1 : (a.trade x y theta landmarks).1
      = (!(a.trade_pass_one x y theta).isEmpty ||
         !(a.trade_pass_two x y theta landmarks).isEmpty) := rfl
  rw [h1]
  have e1 : (a.trade_pass_one x y theta).map Prod.snd = a.landmarks.filter
      (fun lmk => decide (lmk.visibility x y theta > lmk.visibility a.x a.y a.theta + TOLERANCE)) :=
    landmarks_you_add_eq a x y theta
  have e2 : (a.trade_pass_two x y theta landmarks).map Prod.snd = landmarks.filter
      (fun lmk => decide (lmk.visibility a.x a.y a.theta > lmk.visibility x y theta + TOLERANCE)) :=
    landmarks_i_add_eq a x y theta landmarks
  constructor
  · intro hs
    rcases Bool.or_eq_true_iff.mp hs with h | h
    · left
      have hne : a.trade_pass_one x y theta ≠ [] := by
        intro hnil
        rw [hnil] at h
        simp at h
      have : a.landmarks.filter
          (fun lmk => decide (lmk.visibility x y theta > lmk.visibility a.x a.y a.theta + TOLERANCE)) ≠ [] := by
        rw [← e1]
        simpa using hne
      obtain ⟨lmk, hlmk⟩ := List.exists_mem_of_ne_nil _ this
      have hm := List.mem_filter.mp hlmk
      exact ⟨lmk, hm.1, by simpa using hm.2⟩
    · right
      have hne : a.trade_pass_two x y theta landmarks ≠ [] := by
        intro hnil
        rw [hnil] at h
        simp at h
      have : landmarks.filter
          (fun lmk => decide (lmk.visibility a.x a.y a.theta > lmk.visibility x y theta + TOLERANCE)) ≠ [] := by
        rw [← e2]
        simpa using hne
      obtain ⟨lmk, hlmk⟩ := List.exists_mem_of_ne_nil _ this
      have hm := List.mem_filter.mp hlmk
      exact ⟨lmk, hm.1, by simpa using hm.2⟩
  · intro hs
    rcases hs with ⟨lmk, hmem, hlt⟩ | ⟨lmk, hmem, hlt⟩
    · apply Bool.or_eq_true_iff.mpr
      left
      have : lmk ∈ (a.trade_pass_one x y theta).map Prod.snd := by
        rw [e1]
        exact List.mem_filter.mpr ⟨hmem, by simpa using hlt⟩
      rcases List.mem_map.mp this with ⟨p, hp, _⟩
      have : a.trade_pass_one x y theta ≠ [] := List.ne_nil_of_mem hp
      simpa [List.isEmpty_iff] using this
    · apply Bool.or_eq_true_iff.mpr
      right
      have : lmk ∈ (a.trade_pass_two x y theta landmarks).map Prod.snd := by
        rw [e2]
        exact List.mem_filter.mpr ⟨hmem, by simpa using hlt⟩
      rcases List.mem_map.mp this with ⟨p, hp, _⟩
      have : a.trade_pass_two x y theta landmarks ≠ [] := List.ne_nil_of_mem hp
      simpa [List.isEmpty_iff] using this

/-- update_landmarks rewrites only the landmarks field. -/
theorem update_landmarks_pose (a : Agent) (I : List ℕ) (add : List Landmark) :
    (a.update_landmarks I add).x = a.x ∧ (a.update_landmarks I add).y = a.y
    ∧ (a.update_landmarks I add).theta = a.theta :=
  ⟨rfl, rfl, rfl⟩

/-- The agent state returned by trade keeps the caller's pose. -/
theorem trade_pose (a : Agent) (x y theta : ℝ) (landmarks : List Landmark) :
    ((a.trade x y theta landmarks).2.2.2).x = a.x
    ∧ ((a.trade x y theta landmarks).2.2.2).y = a.y
    ∧ ((a.trade x y theta landmarks).2.2.2).theta = a.theta :=
  ⟨rfl, rfl, rfl⟩

/-- The second component of the trade result is the removal index list for
the other agent. -/
theorem trade_component_indexes (a : Agent) (x y theta : ℝ) (landmarks : List Landmark) :
    (a.trade x y theta landmarks).2.1 = a.indexes_you_remove x y theta landmarks := rfl

/-- The third component of the trade result is the landmark list handed to
the other agent. -/
theorem trade_component_landmarks (a : Agent) (x y theta : ℝ) (landmarks : List Landmark) :
    (a.trade x y theta landmarks).2.2.1 = a.landmarks_you_add x y theta := rfl

/-- Membership in the removal index list for the other agent is equivalent
to the second-pass inequality at the indexed snapshot landmark. -/
theorem mem_indexes_you_remove_iff (a : Agent) (x y theta : ℝ) (landmarks : List Landmark)
    (j : ℕ) :
    j ∈ a.indexes_you_remove x y theta landmarks ↔
      ∃ h : j < landmarks.length,
        (landmarks.get ⟨j, h⟩).visibility a.x a.y a.theta
          > (landmarks.get ⟨j, h⟩).visibility x y theta + TOLERANCE := by
  constructor
  · intro hj
    unfold Agent.indexes_you_remove Agent.trade_pass_two at hj
    obtain ⟨r, hr, hr1⟩ := List.mem_map.mp hj
    obtain ⟨hrl, hrq⟩ := List.mem_filter.mp hr
    obtain ⟨i, lm⟩ := r
    simp only at hr1 hrq
    subst hr1
    rw [List.enum_eq_enumFrom] at hrl
    obtain ⟨h1, h2, h3⟩ := List.mem_enumFrom hrl
    have hlt : i < landmarks.length := by omega
    refine ⟨hlt, ?_⟩
    have hlm : lm = landmarks.get ⟨i, hlt⟩ := by
      rw [h3]
      simp [List.get_eq_getElem]
    rw [← hlm]
    simpa using hrq
  · rintro ⟨h, hq⟩
    unfold Agent.indexes_you_remove Agent.trade_pass_two
    apply List.mem_map.mpr
    refine ⟨(j, landmarks.get ⟨j, h⟩), List.mem_filter.mpr ⟨?_, by simpa using hq⟩, rfl⟩
    rw [List.enum_eq_enumFrom]
    apply List.mk_mem_enumFrom_iff_le_and_getElem?_sub.mpr
    refine ⟨Nat.zero_le j, ?_⟩
    rw [Nat.sub_zero]
    simp [List.getElem?_eq_getElem h, List.get_eq_getElem]

/-- The marked indices of an enumeration are the filtered index range. -/
theorem filter_fst_enumFrom_map_fst {α : Type} (P : ℕ → Bool) (l : List α) :
    ∀ n : ℕ, ((l.enumFrom n).filter (fun p => P p.1)).map Prod.fst
      = (List.range' n l.length).filter P := by
  induction l with
  | nil => intro n; simp
  | cons a t ih =>
    intro n
    rw [List.enumFrom_cons, List.length_cons, List.range'_succ, List.filter_cons,
      List.filter_cons]
    cases hp : P n
    · rw [if_neg Bool.false_ne_true, if_neg Bool.false_ne_true]
      exact ih (n + 1)
    · rw [if_pos rfl, if_pos rfl, List.map_cons]
      rw [ih (n + 1)]

/-- A left fold of additions starting at c is c plus the mapped sum. -/
theorem foldl_add_eq_sum {α : Type} (f : α → ℝ) (l : List α) :
    ∀ c : ℝ, l.foldl (fun acc x => acc + f x) c = c + (l.map f).sum := by
  induction l with
  | nil => intro c; simp
  | cons a t ih =>
    intro c
    rw [List.foldl_cons, List.map_cons, List.sum_cons, ih (c + f a)]
    ring

/-- Mapped sums over the two halves of a filter partition add to the whole. -/
theorem sum_map_filter_add_not {α : Type} (q : α → Bool) (f : α → ℝ) (l : List α) :
    ((l.filter q).map f).sum + ((l.filter (fun x => !(q x))).map f).sum = (l.map f).sum := by
  induction l with
  | nil => simp
  | cons a t ih =>
    cases hqa : q a
    · simp [List.filter_cons, hqa]
      linarith [ih]
    · simp [List.filter_cons, hqa]
      linarith [ih]

/-- A mapped sum of differences is the difference of the mapped sums. -/
theorem sum_map_sub {α : Type} (f g : α → ℝ) (l : List α) :
    (l.map (fun x => f x - g x)).sum = (l.map f).sum - (l.map g).sum := by
  induction l with
  | nil => simp
  | cons a t ih =>
    simp only [List.map_cons, List.sum_cons, ih]
    ring

/-- Coverage is the sum of the visibility of the owned landmarks. -/
theorem coverage_eq_sum (a : Agent) :
    a.coverage = (a.landmarks.map (fun lmk => lmk.visibility a.x a.y a.theta)).sum := by
  unfold Agent.coverage
  rw [foldl_add_eq_sum]
  have h0 : (0.0 : ℝ) = 0 := by norm_num
  rw [h0, zero_add]

/-- The lengths of the two halves of a filter partition add to the length. -/
theorem length_filter_add_length_filter_not {α : Type} (q : α → Bool) (l : List α) :
    (l.filter q).length + (l.filter (fun x => !(q x))).length = l.length := by
  induction l with
  | nil => simp
  | cons a t ih =>
    cases hqa : q a
    · simp [List.filter_cons, hqa]
      omega
    · simp [List.filter_cons, hqa]
      omega

/-- The attenuation kernel evaluated at a square root, in rational form. -/
theorem distance_factor_sqrt (s : ℝ) (hs : 0 ≤ s) :
    distance_factor (Real.sqrt s)
      = (1.0 / OPTIMAL_DISTANCE) / (1.0 + s / OPTIMAL_DISTANCE ^ 2) := by
  unfold distance_factor
  rw [div_pow, Real.sq_sqrt hs]

/-- The closed-form ratio evaluated at a square root, in rational form. -/
theorem distance_factor_derivative_over_distance_sqrt (s : ℝ) (hs : 0 ≤ s) :
    distance_factor_derivative_over_distance (Real.sqrt s)
      = -(2.0 / OPTIMAL_DISTANCE ^ 3) / (1.0 + s / OPTIMAL_DISTANCE ^ 2) ^ 2 := by
  unfold distance_factor_derivative_over_distance
  rw [div_pow, Real.sq_sqrt hs]

/-- distance_factor is differentiable with the expected closed-form
derivative at every distance. -/
theorem distance_factor_hasDerivAt (d : ℝ) :
    HasDerivAt distance_factor
      (-(2.0 / OPTIMAL_DISTANCE ^ 3) * d / (1.0 + (d / OPTIMAL_DISTANCE) ^ 2) ^ 2) d := by
  have hD : OPTIMAL_DISTANCE ≠ 0 := by norm_num [OPTIMAL_DISTANCE]
  have h1 : HasDerivAt (fun t : ℝ => t / OPTIMAL_DISTANCE) (1 / OPTIMAL_DISTANCE) d := by
    simpa using (hasDerivAt_id d).div_const OPTIMAL_DISTANCE
  have h2 := h1.pow 2
  have hu : HasDerivAt (fun t : ℝ => 1.0 + (t / OPTIMAL_DISTANCE) ^ 2)
      ((2 : ℝ) * (d / OPTIMAL_DISTANCE) ^ 1 * (1 / OPTIMAL_DISTANCE)) d := by
    simpa using h2.const_add 1.0
  have hne : (1.0 + (d / OPTIMAL_DISTANCE) ^ 2) ≠ 0 := by positivity
  have hdiv := (hasDerivAt_const d (1.0 / OPTIMAL_DISTANCE)).div hu hne
  have hfun : HasDerivAt distance_factor
      ((0 * (1.0 + (d / OPTIMAL_DISTANCE) ^ 2)
          - (1.0 / OPTIMAL_DISTANCE) * ((2 : ℝ) * (d / OPTIMAL_DISTANCE) ^ 1 * (1 / OPTIMAL_DISTANCE)))
        / (1.0 + (d / OPTIMAL_DISTANCE) ^ 2) ^ 2) d := hdiv
  convert hfun using 1
  field_simp
  ring

/-- C7: the closed form of the derivative-over-distance ratio divides only by
the strictly positive square of 1 plus the squared reduced distance; for
every positive d it equals the derivative of distance_factor at d divided by
d; and at d = 0 its (finite) value is the limit of that quotient as d tends
to 0, so the gradient computations are well defined at zero distance. -/
theorem C7_derivative_over_distance :
    (∀ d : ℝ, 0 < (1.0 + (d / OPTIMAL_DISTANCE) ^ 2) ^ 2
      ∧ distance_factor_derivative_over_distance d
        = -(2.0 / OPTIMAL_DISTANCE ^ 3) / (1.0 + (d / OPTIMAL_DISTANCE) ^ 2) ^ 2)
    ∧ (∀ d : ℝ, 0 < d →
        distance_factor_derivative_over_distance d = deriv distance_factor d / d)
    ∧ Filter.Tendsto (fun d : ℝ => deriv distance_factor d / d)
        (nhdsWithin 0 {(0 : ℝ)}ᶜ)
        (nhds (distance_factor_derivative_over_distance 0)) := by
  have hD : OPTIMAL_DISTANCE ≠ 0 := by norm_num [OPTIMAL_DISTANCE]
  have hderiv : ∀ t : ℝ, deriv distance_factor t
      = -(2.0 / OPTIMAL_DISTANCE ^ 3) * t / (1.0 + (t / OPTIMAL_DISTANCE) ^ 2) ^ 2 :=
    fun t => (distance_factor_hasDerivAt t).deriv
  have hmain : ∀ t : ℝ, t ≠ 0 →
      distance_factor_derivative_over_distance t = deriv distance_factor t / t := by
    intro t ht
    rw [hderiv t]
    unfold distance_factor_derivative_over_distance
    have hne : (1.0 + (t / OPTIMAL_DISTANCE) ^ 2) ≠ 0 := by positivity
    field_simp
    ring
  refine ⟨fun d => ⟨by positivity, rfl⟩, fun d hd => hmain d (ne_of_gt hd), ?_⟩
  have hcont : ContinuousAt distance_factor_derivative_over_distance 0 := by
    show ContinuousAt
      (fun d : ℝ => -(2.0 / OPTIMAL_DISTANCE ^ 3) / (1.0 + (d / OPTIMAL_DISTANCE) ^ 2) ^ 2) 0
    apply ContinuousAt.div continuousAt_const
    · exact ((continuousAt_const.add ((continuousAt_id.div_const _).pow 2)).pow 2)
    · norm_num [OPTIMAL_DISTANCE]
  have h2 : Filter.Tendsto distance_factor_derivative_over_distance
      (nhdsWithin 0 {(0 : ℝ)}ᶜ) (nhds (distance_factor_derivative_over_distance 0)) :=
    hcont.continuousWithinAt
  apply Filter.Tendsto.congr' ?_ h2
  apply Filter.eventuallyEq_of_mem self_mem_nhdsWithin
  intro t ht
  exact hmain t (Set.mem_compl_singleton_iff.mp ht)

/-- Visibility written without the square root, using that the kernel
depends on the distance only through its square. -/
theorem visibility_as_rational (lmk : Landmark) (x y theta : ℝ) :
    lmk.visibility x y theta
      = -((1.0 / OPTIMAL_DISTANCE)
            / (1.0 + ((x - lmk.x) ^ 2 + (y - lmk.y) ^ 2) / OPTIMAL_DISTANCE ^ 2))
        * ((x - lmk.x) * Real.cos theta + (y - lmk.y) * Real.sin theta) := by
  show -distance_factor (Real.sqrt ((x - lmk.x) ^ 2 + (y - lmk.y) ^ 2))
      * ((x - lmk.x) * Real.cos theta + (y - lmk.y) * Real.sin theta) = _
  rw [distance_factor_sqrt _ (by positivity)]

/-- The first component of the position gradient is the partial derivative
of visibility in the first pose coordinate. -/
theorem visibility_hasDerivAt_x (lmk : Landmark) (x y theta : ℝ) :
    HasDerivAt (fun t => lmk.visibility t y theta)
      ((lmk.position_visibility_gradient x y theta).1) x := by
  have hD : OPTIMAL_DISTANCE ≠ 0 := by norm_num [OPTIMAL_DISTANCE]
  have hfeq : (fun t => lmk.visibility t y theta)
      = fun t => -((1.0 / OPTIMAL_DISTANCE)
          / (1.0 + ((t - lmk.x) ^ 2 + (y - lmk.y) ^ 2) / OPTIMAL_DISTANCE ^ 2))
        * ((t - lmk.x) * Real.cos theta + (y - lmk.y) * Real.sin theta) :=
    funext (fun t => visibility_as_rational lmk t y theta)
  rw [hfeq]
  have hsq : HasDerivAt (fun t : ℝ => (t - lmk.x) ^ 2 + (y - lmk.y) ^ 2)
      ((2 : ℝ) * (x - lmk.x)) x := by
    simpa using (((hasDerivAt_id x).sub_const lmk.x).pow 2).add_const ((y - lmk.y) ^ 2)
  have hw : HasDerivAt
      (fun t : ℝ => 1.0 + ((t - lmk.x) ^ 2 + (y - lmk.y) ^ 2) / OPTIMAL_DISTANCE ^ 2)
      (((2 : ℝ) * (x - lmk.x)) / OPTIMAL_DISTANCE ^ 2) x := by
    simpa using (hsq.div_const (OPTIMAL_DISTANCE ^ 2)).const_add 1.0
  have hwx : (1.0 + ((x - lmk.x) ^ 2 + (y - lmk.y) ^ 2) / OPTIMAL_DISTANCE ^ 2) ≠ 0 := by
    positivity
  have hcw := (hasDerivAt_const x (1.0 / OPTIMAL_DISTANCE)).div hw hwx
  have hl : HasDerivAt
      (fun t : ℝ => (t - lmk.x) * Real.cos theta + (y - lmk.y) * Real.sin theta)
      (Real.cos theta) x := by
    simpa using (((hasDerivAt_id x).sub_const lmk.x).mul_const (Real.cos theta)).add_const
      ((y - lmk.y) * Real.sin theta)
  have hg := hcw.neg.mul hl
  have hval : (lmk.position_visibility_gradient x y theta).1
      = -((0 * (1.0 + ((x - lmk.x) ^ 2 + (y - lmk.y) ^ 2) / OPTIMAL_DISTANCE ^ 2)
            - (1.0 / OPTIMAL_DISTANCE) * (((2 : ℝ) * (x - lmk.x)) / OPTIMAL_DISTANCE ^ 2))
          / (1.0 + ((x - lmk.x) ^ 2 + (y - lmk.y) ^ 2) / OPTIMAL_DISTANCE ^ 2) ^ 2)
        * ((x - lmk.x) * Real.cos theta + (y - lmk.y) * Real.sin theta)
        + -((1.0 / OPTIMAL_DISTANCE)
            / (1.0 + ((x - lmk.x) ^ 2 + (y - lmk.y) ^ 2) / OPTIMAL_DISTANCE ^ 2))
          * Real.cos theta := by
    show -distance_factor_derivative_over_distance
          (Real.sqrt ((x - lmk.x) ^ 2 + (y - lmk.y) ^ 2))
        * ((x - lmk.x) * (x - lmk.x) * Real.cos theta
            + (x - lmk.x) * (y - lmk.y) * Real.sin theta)
      - distance_factor (Real.sqrt ((x - lmk.x) ^ 2 + (y - lmk.y) ^ 2)) * Real.cos theta = _
    rw [distance_factor_sqrt _ (by positivity),
      distance_factor_derivative_over_distance_sqrt _ (by positivity)]
    field_simp
    ring
  rw [hval]
  exact hg

/-- The second component of the position gradient is the partial derivative
of visibility in the second pose coordinate. -/
theorem visibility_hasDerivAt_y (lmk : Landmark) (x y theta : ℝ) :
    HasDerivAt (fun t => lmk.visibility x t theta)
      ((lmk.position_visibility_gradient x y theta).2) y := by
  have hD : OPTIMAL_DISTANCE ≠ 0 := by norm_num [OPTIMAL_DISTANCE]
  have hfeq : (fun t => lmk.visibility x t theta)
      = fun t => -((1.0 / OPTIMAL_DISTANCE)
          / (1.0 + ((x - lmk.x) ^ 2 + (t - lmk.y) ^ 2) / OPTIMAL_DISTANCE ^ 2))
        * ((x - lmk.x) * Real.cos theta + (t - lmk.y) * Real.sin theta) :=
    funext (fun t => visibility_as_rational lmk x t theta)
  rw [hfeq]
  have hsq : HasDerivAt (fun t : ℝ => (x - lmk.x) ^ 2 + (t - lmk.y) ^ 2)
      ((2 : ℝ) * (y - lmk.y)) y := by
    simpa using ((((hasDerivAt_id y).sub_const lmk.y).pow 2).const_add ((x - lmk.x) ^ 2))
  have hw : HasDerivAt
      (fun t : ℝ => 1.0 + ((x - lmk.x) ^ 2 + (t - lmk.y) ^ 2) / OPTIMAL_DISTANCE ^ 2)
      (((2 : ℝ) * (y - lmk.y)) / OPTIMAL_DISTANCE ^ 2) y := by
    simpa using (hsq.div_const (OPTIMAL_DISTANCE ^ 2)).const_add 1.0
  have hwy : (1.0 + ((x - lmk.x) ^ 2 + (y - lmk.y) ^ 2) / OPTIMAL_DISTANCE ^ 2) ≠ 0 := by
    positivity
  have hcw := (hasDerivAt_const y (1.0 / OPTIMAL_DISTANCE)).div hw hwy
  have hl : HasDerivAt
      (fun t : ℝ => (x - lmk.x) * Real.cos theta + (t - lmk.y) * Real.sin theta)
      (Real.sin theta) y := by
    simpa using ((((hasDerivAt_id y).sub_const lmk.y).mul_const (Real.sin theta)).const_add
      ((x - lmk.x) * Real.cos theta))
  have hg := hcw.neg.mul hl
  have hval : (lmk.position_visibility_gradient x y theta).2
      = -((0 * (1.0 + ((x - lmk.x) ^ 2 + (y - lmk.y) ^ 2) / OPTIMAL_DISTANCE ^ 2)
            - (1.0 / OPTIMAL_DISTANCE) * (((2 : ℝ) * (y - lmk.y)) / OPTIMAL_DISTANCE ^ 2))
          / (1.0 + ((x - lmk.x) ^ 2 + (y - lmk.y) ^ 2) / OPTIMAL_DISTANCE ^ 2) ^ 2)
        * ((x - lmk.x) * Real.cos theta + (y - lmk.y) * Real.sin theta)
        + -((1.0 / OPTIMAL_DISTANCE)
            / (1.0 + ((x - lmk.x) ^ 2 + (y - lmk.y) ^ 2) / OPTIMAL_DISTANCE ^ 2))
          * Real.sin theta := by
    show -distance_factor_derivative_over_distance
          (Real.sqrt ((x - lmk.x) ^ 2 + (y - lmk.y) ^ 2))
        * ((y - lmk.y) * (x - lmk.x) * Real.cos theta
            + (y - lmk.y) * (y - lmk.y) * Real.sin theta)
      - distance_factor (Real.sqrt ((x - lmk.x) ^ 2 + (y - lmk.y) ^ 2)) * Real.sin theta = _
    rw [distance_factor_sqrt _ (by positivity),
      distance_factor_derivative_over_distance_sqrt _ (by positivity)]
    field_simp
    ring
  rw [hval]
  exact hg

/-- The orientation gradient is the partial derivative of visibility in the
pose angle. -/
theorem visibility_hasDerivAt_theta (lmk : Landmark) (x y theta : ℝ) :
    HasDerivAt (fun t => lmk.visibility x y t)
      (lmk.orientation_visibility_gradient x y theta) theta := by
  have hfeq : (fun t => lmk.visibility x y t)
      = fun t => -distance_factor (Real.sqrt ((x - lmk.x) ^ 2 + (y - lmk.y) ^ 2))
          * ((x - lmk.x) * Real.cos t + (y - lmk.y) * Real.sin t) :=
    funext (fun t => rfl)
  rw [hfeq]
  have hinner : HasDerivAt
      (fun t => (x - lmk.x) * Real.cos t + (y - lmk.y) * Real.sin t)
      ((x - lmk.x) * (-Real.sin theta) + (y - lmk.y) * Real.cos theta) theta :=
    ((Real.hasDerivAt_cos theta).const_mul (x - lmk.x)).add
      ((Real.hasDerivAt_sin theta).const_mul (y - lmk.y))
  have hg := hinner.const_mul
    (-distance_factor (Real.sqrt ((x - lmk.x) ^ 2 + (y - lmk.y) ^ 2)))
  have hval : lmk.orientation_visibility_gradient x y theta
      = -distance_factor (Real.sqrt ((x - lmk.x) ^ 2 + (y - lmk.y) ^ 2))
        * ((x - lmk.x) * (-Real.sin theta) + (y - lmk.y) * Real.cos theta) := by
    show -distance_factor (Real.sqrt ((x - lmk.x) ^ 2 + (y - lmk.y) ^ 2))
        * (-Real.sin theta * (x - lmk.x) + Real.cos theta * (y - lmk.y)) = _
    ring
  rw [hval]
  exact hg

/-- C8: the pair returned by position_visibility_gradient is the gradient of
visibility in the pose position, componentwise, and the scalar returned by
orientation_visibility_gradient is the partial derivative of visibility in
the pose angle. -/
theorem C8_visibility_gradients (lmk : Landmark) (x y theta : ℝ) :
    HasDerivAt (fun t => lmk.visibility t y theta)
      ((lmk.position_visibility_gradient x y theta).1) x
    ∧ HasDerivAt (fun t => lmk.visibility x t theta)
      ((lmk.position_visibility_gradient x y theta).2) y
    ∧ HasDerivAt (fun t => lmk.visibility x y t)
      (lmk.orientation_visibility_gradient x y theta) theta :=
  ⟨visibility_hasDerivAt_x lmk x y theta, visibility_hasDerivAt_y lmk x y theta,
    visibility_hasDerivAt_theta lmk x y theta⟩

/-- C9: the boundary function returns the minimum of the four edge
distances, and the boundary gradient returns the inward unit vector of the
minimal edge distance under the index mapping 0 to (-1,0), 1 to (1,0), 2 to
(0,-1) and 3 to (0,1), picking the lowest index when edge distances tie
(first-occurrence argmin, encoded by the ordering of the conditions). -/
theorem C9_boundary (bounds : (ℝ × ℝ) × (ℝ × ℝ)) (position : ℝ × ℝ) :
    square_boundary_function bounds position
      = min (min (min (bounds.1.2 - position.1) (position.1 - bounds.1.1))
          (bounds.2.2 - position.2)) (position.2 - bounds.2.1)
    ∧ square_boundary_function_gradient bounds position
      = (if bounds.1.2 - position.1 ≤ position.1 - bounds.1.1
            ∧ bounds.1.2 - position.1 ≤ bounds.2.2 - position.2
            ∧ bounds.1.2 - position.1 ≤ position.2 - bounds.2.1
          then ((-1 : ℝ), (0 : ℝ))
          else if position.1 - bounds.1.1 ≤ bounds.2.2 - position.2
            ∧ position.1 - bounds.1.1 ≤ position.2 - bounds.2.1
          then (1, 0)
          else if bounds.2.2 - position.2 ≤ position.2 - bounds.2.1
          then (0, -1)
          else (0, 1)) := by
  constructor
  · rfl
  · show (if np_argmin [bounds.1.2 - position.1, position.1 - bounds.1.1,
          bounds.2.2 - position.2, position.2 - bounds.2.1] = 0 then ((-1 : ℝ), (0 : ℝ))
        else if np_argmin [bounds.1.2 - position.1, position.1 - bounds.1.1,
          bounds.2.2 - position.2, position.2 - bounds.2.1] = 1 then (1, 0)
        else if np_argmin [bounds.1.2 - position.1, position.1 - bounds.1.1,
          bounds.2.2 - position.2, position.2 - bounds.2.1] = 2 then (0, -1)
        else (0, 1)) = _
    have e1 : np_argmin [bounds.1.2 - position.1, position.1 - bounds.1.1,
          bounds.2.2 - position.2, position.2 - bounds.2.1]
        = if ∀ z ∈ [position.1 - bounds.1.1, bounds.2.2 - position.2,
            position.2 - bounds.2.1], bounds.1.2 - position.1 ≤ z then 0
          else np_argmin [position.1 - bounds.1.1, bounds.2.2 - position.2,
            position.2 - bounds.2.1] + 1 := rfl
    have e2 : np_argmin [position.1 - bounds.1.1, bounds.2.2 - position.2,
          position.2 - bounds.2.1]
        = if ∀ z ∈ [bounds.2.2 - position.2, position.2 - bounds.2.1],
            position.1 - bounds.1.1 ≤ z then 0
          else np_argmin [bounds.2.2 - position.2, position.2 - bounds.2.1] + 1 := rfl
    have e3 : np_argmin [bounds.2.2 - position.2, position.2 - bounds.2.1]
        = if ∀ z ∈ [position.2 - bounds.2.1], bounds.2.2 - position.2 ≤ z then 0
          else np_argmin [position.2 - bounds.2.1] + 1 := rfl
    have e4 : np_argmin [position.2 - bounds.2.1] = 0 := by
      have h4 : ∀ z ∈ ([] : List ℝ), position.2 - bounds.2.1 ≤ z :=
        fun z hz => absurd hz (List.not_mem_nil z)
      show (if ∀ z ∈ ([] : List ℝ), position.2 - bounds.2.1 ≤ z then 0
        else np_argmin [] + 1) = 0
      rw [if_pos h4]
    by_cases h1 : bounds.1.2 - position.1 ≤ position.1 - bounds.1.1
        ∧ bounds.1.2 - position.1 ≤ bounds.2.2 - position.2
        ∧ bounds.1.2 - position.1 ≤ position.2 - bounds.2.1
    · have hf1 : ∀ z ∈ [position.1 - bounds.1.1, bounds.2.2 - position.2,
          position.2 - bounds.2.1], bounds.1.2 - position.1 ≤ z := by
        intro z hz
        rcases List.mem_cons.mp hz with rfl | hz
        · exact h1.1
        rcases List.mem_cons.mp hz with rfl | hz
        · exact h1.2.1
        rcases List.mem_cons.mp hz with rfl | hz
        · exact h1.2.2
        · exact absurd hz (List.not_mem_nil z)
      rw [e1, if_pos hf1, if_pos h1]
      norm_num
    · have hn1 : ¬∀ z ∈ [position.1 - bounds.1.1, bounds.2.2 - position.2,
          position.2 - bounds.2.1], bounds.1.2 - position.1 ≤ z :=
        fun hf => h1 ⟨hf _ (by simp), hf _ (by simp), hf _ (by simp)⟩
      rw [e1, if_neg hn1, if_neg h1]
      by_cases h2 : position.1 - bounds.1.1 ≤ bounds.2.2 - position.2
          ∧ position.1 - bounds.1.1 ≤ position.2 - bounds.2.1
      · have hf2 : ∀ z ∈ [bounds.2.2 - position.2, position.2 - bounds.2.1],
            position.1 - bounds.1.1 ≤ z := by
          intro z hz
          rcases List.mem_cons.mp hz with rfl | hz
          · exact h2.1
          rcases List.mem_cons.mp hz with rfl | hz
          · exact h2.2
          · exact absurd hz (List.not_mem_nil z)
        rw [e2, if_pos hf2, if_pos h2]
        norm_num
      · have hn2 : ¬∀ z ∈ [bounds.2.2 - position.2, position.2 - bounds.2.1],
            position.1 - bounds.1.1 ≤ z :=
          fun hf => h2 ⟨hf _ (by simp), hf _ (by simp)⟩
        rw [e2, if_neg hn2, if_neg h2]
        by_cases h3 : bounds.2.2 - position.2 ≤ position.2 - bounds.2.1
        · have hf3 : ∀ z ∈ [position.2 - bounds.2.1], bounds.2.2 - position.2 ≤ z := by
            intro z hz
            rcases List.mem_cons.mp hz with rfl | hz
            · exact h3
            · exact absurd hz (List.not_mem_nil z)
          rw [e3, if_pos hf3, if_pos h3]
          norm_num
        · have hn3 : ¬∀ z ∈ [position.2 - bounds.2.1], bounds.2.2 - position.2 ≤ z :=
            fun hf => h3 (hf _ (by simp))
          rw [e3, if_neg hn3, e4, if_neg h3]
          norm_num

/-- C3: with the fixed nonnegative tolerance, after one agent trades against
the partner's snapshot and the partner applies the returned ownership patch,
the sum of the two coverage values does not decrease, and increases strictly
whenever the trade reported success. -/
theorem C3_trade_monotonicity (a b : Agent) :
    a.coverage + b.coverage
      ≤ ((a.trade b.x b.y b.theta b.landmarks).2.2.2).coverage
        + (b.update_landmarks ((a.trade b.x b.y b.theta b.landmarks).2.1)
            ((a.trade b.x b.y b.theta b.landmarks).2.2.1)).coverage
    ∧ ((a.trade b.x b.y b.theta b.landmarks).1 = true →
        a.coverage + b.coverage
          < ((a.trade b.x b.y b.theta b.landmarks).2.2.2).coverage
            + (b.update_landmarks ((a.trade b.x b.y b.theta b.landmarks).2.1)
                ((a.trade b.x b.y b.theta b.landmarks).2.2.1)).coverage) := by
  have hTol : (0 : ℝ) ≤ TOLERANCE := by norm_num [TOLERANCE]
  have hA := trade_updated_self_landmarks a b.x b.y b.theta b.landmarks
  have hB := patch_updated_other_landmarks a b
  obtain ⟨hax, hay, hat⟩ := trade_pose a b.x b.y b.theta b.landmarks
  obtain ⟨hbx, hby, hbt⟩ := update_landmarks_pose b
    ((a.trade b.x b.y b.theta b.landmarks).2.1)
    ((a.trade b.x b.y b.theta b.landmarks).2.2.1)
  have hcovA' : ((a.trade b.x b.y b.theta b.landmarks).2.2.2).coverage
      = ((a.landmarks.filter (fun lmk =>
            !(decide (lmk.visibility b.x b.y b.theta > lmk.visibility a.x a.y a.theta + TOLERANCE)))).map
          (fun lmk => lmk.visibility a.x a.y a.theta)).sum
        + ((b.landmarks.filter (fun lmk =>
            decide (lmk.visibility a.x a.y a.theta > lmk.visibility b.x b.y b.theta + TOLERANCE))).map
          (fun lmk => lmk.visibility a.x a.y a.theta)).sum := by
    rw [coverage_eq_sum, hax, hay, hat, hA, List.map_append, List.sum_append]
  have hcovB' : (b.update_landmarks ((a.trade b.x b.y b.theta b.landmarks).2.1)
        ((a.trade b.x b.y b.theta b.landmarks).2.2.1)).coverage
      = ((b.landmarks.filter (fun lmk =>
            !(decide (lmk.visibility a.x a.y a.theta > lmk.visibility b.x b.y b.theta + TOLERANCE)))).map
          (fun lmk => lmk.visibility b.x b.y b.theta)).sum
        + ((a.landmarks.filter (fun lmk =>
            decide (lmk.visibility b.x b.y b.theta > lmk.visibility a.x a.y a.theta + TOLERANCE))).map
          (fun lmk => lmk.visibility b.x b.y b.theta)).sum := by
    rw [coverage_eq_sum, hbx, hby, hbt, hB, List.map_append, List.sum_append]
  have hcovA : a.coverage
      = ((a.landmarks.filter (fun lmk =>
            decide (lmk.visibility b.x b.y b.theta > lmk.visibility a.x a.y a.theta + TOLERANCE))).map
          (fun lmk => lmk.visibility a.x a.y a.theta)).sum
        + ((a.landmarks.filter (fun lmk =>
            !(decide (lmk.visibility b.x b.y b.theta > lmk.visibility a.x a.y a.theta + TOLERANCE)))).map
          (fun lmk => lmk.visibility a.x a.y a.theta)).sum := by
    rw [coverage_eq_sum, ← sum_map_filter_add_not
      (fun lmk => decide (lmk.visibility b.x b.y b.theta > lmk.visibility a.x a.y a.theta + TOLERANCE))
      (fun lmk => lmk.visibility a.x a.y a.theta) a.landmarks]
  have hcovB : b.coverage
      = ((b.landmarks.filter (fun lmk =>
            decide (lmk.visibility a.x a.y a.theta > lmk.visibility b.x b.y b.theta + TOLERANCE))).map
          (fun lmk => lmk.visibility b.x b.y b.theta)).sum
        + ((b.landmarks.filter (fun lmk =>
            !(decide (lmk.visibility a.x a.y a.theta > lmk.visibility b.x b.y b.theta + TOLERANCE)))).map
          (fun lmk => lmk.visibility b.x b.y b.theta)).sum := by
    rw [coverage_eq_sum, ← sum_map_filter_add_not
      (fun lmk => decide (lmk.visibility a.x a.y a.theta > lmk.visibility b.x b.y b.theta + TOLERANCE))
      (fun lmk => lmk.visibility b.x b.y b.theta) b.landmarks]
  have hD1eq := sum_map_sub
    (fun lmk => lmk.visibility b.x b.y b.theta) (fun lmk => lmk.visibility a.x a.y a.theta)
    (a.landmarks.filter (fun lmk =>
      decide (lmk.visibility b.x b.y b.theta > lmk.visibility a.x a.y a.theta + TOLERANCE)))
  have hD2eq := sum_map_sub
    (fun lmk => lmk.visibility a.x a.y a.theta) (fun lmk => lmk.visibility b.x b.y b.theta)
    (b.landmarks.filter (fun lmk =>
      decide (lmk.visibility a.x a.y a.theta > lmk.visibility b.x b.y b.theta + TOLERANCE)))
  have hD1mem : ∀ z ∈ ((a.landmarks.filter (fun lmk =>
        decide (lmk.visibility b.x b.y b.theta > lmk.visibility a.x a.y a.theta + TOLERANCE))).map
      (fun lmk => lmk.visibility b.x b.y b.theta - lmk.visibility a.x a.y a.theta)), 0 < z := by
    intro z hz
    obtain ⟨lmk, hlmk, hzeq⟩ := List.mem_map.mp hz
    have hq := (List.mem_filter.mp hlmk).2
    rw [decide_eq_true_iff] at hq
    rw [← hzeq]
    linarith
  have hD2mem : ∀ z ∈ ((b.landmarks.filter (fun lmk =>
        decide (lmk.visibility a.x a.y a.theta > lmk.visibility b.x b.y b.theta + TOLERANCE))).map
      (fun lmk => lmk.visibility a.x a.y a.theta - lmk.visibility b.x b.y b.theta)), 0 < z := by
    intro z hz
    obtain ⟨lmk, hlmk, hzeq⟩ := List.mem_map.mp hz
    have hq := (List.mem_filter.mp hlmk).2
    rw [decide_eq_true_iff] at hq
    rw [← hzeq]
    linarith
  have hD1nonneg : 0 ≤ ((a.landmarks.filter (fun lmk =>
        decide (lmk.visibility b.x b.y b.theta > lmk.visibility a.x a.y a.theta + TOLERANCE))).map
      (fun lmk => lmk.visibility b.x b.y b.theta - lmk.visibility a.x a.y a.theta)).sum :=
    List.sum_nonneg (fun z hz => le_of_lt (hD1mem z hz))
  have hD2nonneg : 0 ≤ ((b.landmarks.filter (fun lmk =>
        decide (lmk.visibility a.x a.y a.theta > lmk.visibility b.x b.y b.theta + TOLERANCE))).map
      (fun lmk => lmk.visibility a.x a.y a.theta - lmk.visibility b.x b.y b.theta)).sum :=
    List.sum_nonneg (fun z hz => le_of_lt (hD2mem z hz))
  constructor
  · rw [hcovA', hcovB', hcovA, hcovB]
    linarith [hD1eq, hD2eq, hD1nonneg, hD2nonneg]
  · intro hs
    rcases (trade_success_iff a b.x b.y b.theta b.landmarks).mp hs with
      ⟨lmk, hmem, hlt⟩ | ⟨lmk, hmem, hlt⟩
    · have hfm : lmk ∈ a.landmarks.filter (fun lmk =>
          decide (lmk.visibility b.x b.y b.theta > lmk.visibility a.x a.y a.theta + TOLERANCE)) :=
        List.mem_filter.mpr ⟨hmem, by simpa using hlt⟩
      have hne : ((a.landmarks.filter (fun lmk =>
            decide (lmk.visibility b.x b.y b.theta > lmk.visibility a.x a.y a.theta + TOLERANCE))).map
          (fun lmk => lmk.visibility b.x b.y b.theta - lmk.visibility a.x a.y a.theta)) ≠ [] :=
        List.ne_nil_of_mem (List.mem_map_of_mem _ hfm)
      have hpos := List.sum_pos _ hD1mem hne
      rw [hcovA', hcovB', hcovA, hcovB]
      linarith [hD1eq, hD2eq, hpos, hD2nonneg]
    · have hfm : lmk ∈ b.landmarks.filter (fun lmk =>
          decide (lmk.visibility a.x a.y a.theta > lmk.visibility b.x b.y b.theta + TOLERANCE)) :=
        List.mem_filter.mpr ⟨hmem, by simpa using hlt⟩
      have hne : ((b.landmarks.filter (fun lmk =>
            decide (lmk.visibility a.x a.y a.theta > lmk.visibility b.x b.y b.theta + TOLERANCE))).map
          (fun lmk => lmk.visibility a.x a.y a.theta - lmk.visibility b.x b.y b.theta)) ≠ [] :=
        List.ne_nil_of_mem (List.mem_map_of_mem _ hfm)
      have hpos := List.sum_pos _ hD2mem hne
      rw [hcovA', hcovB', hcovA, hcovB]
      linarith [hD1eq, hD2eq, hpos, hD1nonneg]

/-- C5: for every input to trade the two count equalities hold when control
reaches the assertions: the number of indices marked for removal from self
equals the number of landmarks queued for the other agent, and the number of
indices marked for removal from the other agent equals the number of
landmarks added to self; hence the two assert statements never fail and the
InvariantViolation branch is unreachable. -/
theorem C5_trade_assert_invariants (a : Agent) (x y theta : ℝ) (landmarks : List Landmark) :
    (a.indexes_i_remove x y theta).length = (a.landmarks_you_add x y theta).length
    ∧ (a.indexes_you_remove x y theta landmarks).length
        = (a.landmarks_i_add x y theta landmarks).length := by
  constructor
  · unfold Agent.indexes_i_remove Agent.landmarks_you_add
    rw [List.length_map, List.length_map]
  · unfold Agent.indexes_you_remove Agent.landmarks_i_add
    rw [List.length_map, List.length_map]

/-- C10: a call to trade changes only the calling agent's landmark
collection: the caller's pose is unchanged in the returned self state, and
the partner's state is touched only by the separate update_landmarks call,
which itself changes only the landmarks field of its target.  The snapshot
landmark list is an argument taken by value and no part of the computation
rebinds it, which the pure embedding reflects. -/
theorem C10_trade_frame (a b : Agent) (x y theta : ℝ) (landmarks : List Landmark)
    (I : List ℕ) (add : List Landmark) :
    ((a.trade x y theta landmarks).2.2.2).x = a.x
    ∧ ((a.trade x y theta landmarks).2.2.2).y = a.y
    ∧ ((a.trade x y theta landmarks).2.2.2).theta = a.theta
    ∧ (b.update_landmarks I add).x = b.x
    ∧ (b.update_landmarks I add).y = b.y
    ∧ (b.update_landmarks I add).theta = b.theta :=
  ⟨rfl, rfl, rfl, rfl, rfl, rfl⟩

/-- C2: trade marks exactly the own landmarks whose visibility from the
other pose strictly exceeds their own-pose visibility plus TOLERANCE and
exactly the snapshot indices with the symmetric strict inequality; it
removes the marked own indices by original indexing and appends the marked
snapshot landmarks to self; it returns the marked snapshot indices, the
marked own landmarks, and a success flag set exactly when either pass marked
a landmark. -/
theorem C2_trade_functional (a : Agent) (x y theta : ℝ) (landmarks : List Landmark) :
    ((a.trade x y theta landmarks).2.2.2).landmarks
      = a.landmarks.filter
          (fun lmk => !(decide (lmk.visibility x y theta > lmk.visibility a.x a.y a.theta + TOLERANCE)))
        ++ landmarks.filter
          (fun lmk => decide (lmk.visibility a.x a.y a.theta > lmk.visibility x y theta + TOLERANCE))
    ∧ (a.trade x y theta landmarks).2.2.1
      = a.landmarks.filter
          (fun lmk => decide (lmk.visibility x y theta > lmk.visibility a.x a.y a.theta + TOLERANCE))
    ∧ (∀ j : ℕ, j ∈ (a.trade x y theta landmarks).2.1 ↔
        ∃ h : j < landmarks.length,
          (landmarks.get ⟨j, h⟩).visibility a.x a.y a.theta
            > (landmarks.get ⟨j, h⟩).visibility x y theta + TOLERANCE)
    ∧ ((a.trade x y theta landmarks).1 = true ↔
        ((∃ lmk ∈ a.landmarks,
            lmk.visibility x y theta > lmk.visibility a.x a.y a.theta + TOLERANCE)
          ∨ (∃ lmk ∈ landmarks,
            lmk.visibility a.x a.y a.theta > lmk.visibility x y theta + TOLERANCE))) := by
  refine ⟨trade_updated_self_landmarks a x y theta landmarks, ?_, ?_,
    trade_success_iff a x y theta landmarks⟩
  · rw [trade_component_landmarks, landmarks_you_add_eq]
  · intro j
    rw [trade_component_indexes]
    exact mem_indexes_you_remove_iff a x y theta landmarks j

/-- C4 as stated is false: update_landmarks does not report any error for a
removal index at or beyond the collection length; at the concrete input of a
one-element collection and the stale removal index 2 it returns normally and
leaves the collection unchanged, silently ignoring the index. -/
theorem C4_stale_index_counterexample :
    ((Agent.mk 0 0 0 [Landmark.mk 1 2]).update_landmarks [2] []).landmarks
      = [Landmark.mk 1 2] := by
  simp [Agent.update_landmarks, List.range_succ]

/-- C4 amended: update_landmarks silently ignores removal indices at or
beyond the current collection length: the operation is total, reports
nothing, and its result equals the result of applying only the in-bounds
removal indices. -/
theorem C4_stale_index_amended (a : Agent) (I : List ℕ) (add : List Landmark) :
    a.update_landmarks I add
      = a.update_landmarks (I.filter (fun i => decide (i < a.landmarks.length))) add := by
  unfold Agent.update_landmarks
  have hfl : (List.range a.landmarks.length).filter (fun i => decide (i ∉ I))
      = (List.range a.landmarks.length).filter
        (fun i => decide (i ∉ I.filter (fun i => decide (i < a.landmarks.length)))) := by
    apply List.filter_congr
    intro i hi
    have hilt : i < a.landmarks.length := List.mem_range.mp hi
    apply decide_eq_decide.mpr
    constructor
    · intro hnot hmem
      exact hnot (List.mem_of_mem_filter hmem)
    · intro hnot hmem
      exact hnot (List.mem_filter.mpr ⟨hmem, by simpa using hilt⟩)
  rw [hfl]

/-- C6: for a pairwise-distinct in-bounds removal list R, update_landmarks
replaces the collection by exactly the landmarks whose original index is not
in R, in their original relative order, followed by the added landmarks in
their given order; in particular the new length is the old length minus the
number of removed indices plus the number of additions. -/
theorem C6_apply_ownership_patch (a : Agent) (R : List ℕ) (L : List Landmark)
    (hnodup : R.Nodup) (hbound : ∀ i ∈ R, i < a.landmarks.length) :
    (a.update_landmarks R L).landmarks
      = (a.landmarks.enum.filter (fun p => decide (p.1 ∉ R))).map Prod.snd ++ L
    ∧ (a.update_landmarks R L).landmarks.length
      = a.landmarks.length - R.length + L.length := by
  refine ⟨update_landmarks_landmarks a R L, ?_⟩
  rw [update_landmarks_landmarks a R L, List.length_append, List.length_map]
  have hpart := length_filter_add_length_filter_not
    (fun p : ℕ × Landmark => decide (p.1 ∈ R)) a.landmarks.enum
  have hnotform : a.landmarks.enum.filter
        (fun p : ℕ × Landmark => !(decide (p.1 ∈ R)))
      = a.landmarks.enum.filter (fun p : ℕ × Landmark => decide (p.1 ∉ R)) := by
    apply List.filter_congr
    intro p _
    simp [decide_not]
  have hmarked : (a.landmarks.enum.filter
      (fun p : ℕ × Landmark => decide (p.1 ∈ R))).length = R.length := by
    have hfst := filter_fst_enumFrom_map_fst (fun i => decide (i ∈ R)) a.landmarks 0
    have hlen1 : (a.landmarks.enum.filter
        (fun p : ℕ × Landmark => decide (p.1 ∈ R))).length
        = ((List.range' 0 a.landmarks.length).filter (fun i => decide (i ∈ R))).length := by
      rw [← hfst, List.length_map, List.enum_eq_enumFrom]
    have hFnodup : ((List.range' 0 a.landmarks.length).filter
        (fun i => decide (i ∈ R))).Nodup := by
      apply List.Nodup.filter
      rw [← List.range_eq_range']
      exact List.nodup_range _
    have hperm : List.Perm ((List.range' 0 a.landmarks.length).filter
        (fun i => decide (i ∈ R))) R := by
      apply (List.perm_ext_iff_of_nodup hFnodup hnodup).mpr
      intro i
      constructor
      · intro hmem
        have := List.mem_filter.mp hmem
        simpa using this.2
      · intro hmem
        apply List.mem_filter.mpr
        refine ⟨?_, by simpa using hmem⟩
        rw [← List.range_eq_range']
        exact List.mem_range.mpr (hbound i hmem)
    rw [hlen1, List.Perm.length_eq hperm]
  have henlen : a.landmarks.enum.length = a.landmarks.length := List.enum_length
  rw [← hnotform]
  omega

/-- C1: for two agents whose collections are coordinate-disjoint and hold N
landmarks in total, running trade against the partner's snapshot and applying
the returned removal indices and landmark list on the partner leaves exactly
N landmarks across the two collections, and no coordinate pair occurs in
both. -/
theorem C1_trade_conservation (a b : Agent) (N : ℕ)
    (hdisj : ∀ la ∈ a.landmarks, ∀ lb ∈ b.landmarks, ((la.x, la.y) : ℝ × ℝ) ≠ (lb.x, lb.y))
    (hN : a.landmarks.length + b.landmarks.length = N) :
    ((a.trade b.x b.y b.theta b.landmarks).2.2.2).landmarks.length
      + (b.update_landmarks ((a.trade b.x b.y b.theta b.landmarks).2.1)
          ((a.trade b.x b.y b.theta b.landmarks).2.2.1)).landmarks.length = N
    ∧ ∀ c : ℝ × ℝ,
        ¬((∃ la ∈ ((a.trade b.x b.y b.theta b.landmarks).2.2.2).landmarks, (la.x, la.y) = c)
          ∧ (∃ lb ∈ (b.update_landmarks ((a.trade b.x b.y b.theta b.landmarks).2.1)
              ((a.trade b.x b.y b.theta b.landmarks).2.2.1)).landmarks, (lb.x, lb.y) = c)) := by
  have hA := trade_updated_self_landmarks a b.x b.y b.theta b.landmarks
  have hB := patch_updated_other_landmarks a b
  constructor
  · rw [hA, hB, List.length_append, List.length_append]
    have h1 := length_filter_add_length_filter_not
      (fun lmk : Landmark =>
        decide (lmk.visibility b.x b.y b.theta > lmk.visibility a.x a.y a.theta + TOLERANCE))
      a.landmarks
    have h2 := length_filter_add_length_filter_not
      (fun lmk : Landmark =>
        decide (lmk.visibility a.x a.y a.theta > lmk.visibility b.x b.y b.theta + TOLERANCE))
      b.landmarks
    omega
  · intro c hc
    obtain ⟨⟨la, hla, hc1⟩, ⟨lb, hlb, hc2⟩⟩ := hc
    rw [hA] at hla
    rw [hB] at hlb
    have hab : la = lb := by
      have h := hc1.trans hc2.symm
      have hx := congrArg Prod.fst h
      have hy := congrArg Prod.snd h
      simp only at hx hy
      exact Landmark.ext hx hy
    subst hab
    rcases List.mem_append.mp hla with h1 | h1 <;>
      rcases List.mem_append.mp hlb with h2 | h2
    · exact hdisj la (List.mem_of_mem_filter h1) la (List.mem_of_mem_filter h2) rfl
    · have hq1 := (List.mem_filter.mp h1).2
      have hq2 := (List.mem_filter.mp h2).2
      rw [hq2] at hq1
      simp at hq1
    · have hq1 := (List.mem_filter.mp h1).2
      have hq2 := (List.mem_filter.mp h2).2
      rw [hq1] at hq2
      simp at hq2
    · exact hdisj la (List.mem_of_mem_filter h2) la (List.mem_of_mem_filter h1) rfl

/-- The hypotheses of the trade-conservation theorem hold for the concrete
pair of an agent at the origin owning the landmark (5, 0) and an agent at
(4, 0, 0) owning nothing, with N = 1, and its conclusion follows there. -/
theorem C1_trade_conservation_witness :
    (∀ la ∈ ([Landmark.mk 5 0] : List Landmark), ∀ lb ∈ ([] : List Landmark),
        ((la.x, la.y) : ℝ × ℝ) ≠ (lb.x, lb.y))
    ∧ ([Landmark.mk 5 0] : List Landmark).length + ([] : List Landmark).length = 1
    ∧ (((Agent.mk 0 0 0 [Landmark.mk 5 0]).trade 4 0 0 []).2.2.2).landmarks.length
        + ((Agent.mk 4 0 0 []).update_landmarks
            (((Agent.mk 0 0 0 [Landmark.mk 5 0]).trade 4 0 0 []).2.1)
            (((Agent.mk 0 0 0 [Landmark.mk 5 0]).trade 4 0 0 []).2.2.1)).landmarks.length = 1
    ∧ ∀ c : ℝ × ℝ,
        ¬((∃ la ∈ (((Agent.mk 0 0 0 [Landmark.mk 5 0]).trade 4 0 0 []).2.2.2).landmarks,
            (la.x, la.y) = c)
          ∧ (∃ lb ∈ ((Agent.mk 4 0 0 []).update_landmarks
              (((Agent.mk 0 0 0 [Landmark.mk 5 0]).trade 4 0 0 []).2.1)
              (((Agent.mk 0 0 0 [Landmark.mk 5 0]).trade 4 0 0 []).2.2.1)).landmarks,
            (lb.x, lb.y) = c)) :=
  ⟨by simp, by simp,
    (C1_trade_conservation (Agent.mk 0 0 0 [Landmark.mk 5 0]) (Agent.mk 4 0 0 []) 1
      (by simp) (by simp)).1,
    (C1_trade_conservation (Agent.mk 0 0 0 [Landmark.mk 5 0]) (Agent.mk 4 0 0 []) 1
      (by simp) (by simp)).2⟩

/-- The hypotheses of the ownership-patch characterisation hold at a concrete
two-landmark collection with removal list [0], and the characterisation then
gives the patched collection and its length. -/
theorem C6_apply_ownership_patch_witness :
    ([0] : List ℕ).Nodup
    ∧ (∀ i ∈ ([0] : List ℕ), i < (Agent.mk 0 0 0 [Landmark.mk 1 1, Landmark.mk 2 2]).landmarks.length)
    ∧ (((Agent.mk 0 0 0 [Landmark.mk 1 1, Landmark.mk 2 2]).update_landmarks [0]
          [Landmark.mk 7 7]).landmarks
        = (([Landmark.mk 1 1, Landmark.mk 2 2] : List Landmark).enum.filter
            (fun p => decide (p.1 ∉ ([0] : List ℕ)))).map Prod.snd ++ [Landmark.mk 7 7]
      ∧ ((Agent.mk 0 0 0 [Landmark.mk 1 1, Landmark.mk 2 2]).update_landmarks [0]
          [Landmark.mk 7 7]).landmarks.length
        = (Agent.mk 0 0 0 [Landmark.mk 1 1, Landmark.mk 2 2]).landmarks.length - 1 + 1) :=
  ⟨by simp, by simp,
    C6_apply_ownership_patch (Agent.mk 0 0 0 [Landmark.mk 1 1, Landmark.mk 2 2]) [0]
      [Landmark.mk 7 7] (by simp) (by simp)⟩

end
